import Mathlib

/-!
Shallow embedding of the core of `src/tar/src/evaluate.py`
(TranslateAlignRetrieve): the content indexer `content_to_qids`,
the aligner `align_content`, and the helpers `remove_line_breaks`
and the `OrderedSet`-based deduplication.

JSON datasets are modelled structurally; python dicts built by
`defaultdict(list)` with insertion-ordered iteration are modelled as
association lists whose keys stay unique and appear in first-insertion
order.  File I/O, logging, BLEU scoring and tokenization are out of
scope, matching the spec.
-/

namespace TAR

/-- One answer: `{"text": str, ...}` (the start offset is never read). -/
structure Answer where
  text : String
deriving DecidableEq, Repr

/-- One QA item: `{"id": str, "question": str, "answers": [...]}`. -/
structure Question where
  id : String
  question : String
  answers : List Answer
deriving DecidableEq, Repr

/-- One paragraph: `{"context": str, "qas": [...]}`. -/
structure Paragraph where
  context : String
  qas : List Question
deriving DecidableEq, Repr

/-- One document of the `"data"` array (the title is never read). -/
structure Document where
  paragraphs : List Paragraph
deriving DecidableEq, Repr

/-- A whole dataset: `{"data": [...]}`. -/
structure Dataset where
  data : List Document
deriving DecidableEq, Repr

/-- Removing every occurrence of the single character `c` from a string;
`text.replace(c, "")` for a one-character pattern. -/
def removeChar (c : Char) (s : String) : String :=
  String.mk (s.data.filter (fun x => x ≠ c))

/-- `remove_line_breaks`: `text.replace("\n", "").replace("\r", "")`. -/
def remove_line_breaks (text : String) : String :=
  removeChar '\r' (removeChar '\n' text)

/-- A python `defaultdict(list)` as an insertion-ordered association
list from text keys to lists of question ids. -/
abbrev Multimap := List (String × List String)

/-- `m[k].append(v)` on a `defaultdict(list)`: append `v` to the list
at key `k`, creating the key at the end on first use. -/
def appendTo (m : Multimap) (k v : String) : Multimap :=
  match m with
  | [] => [(k, [v])]
  | (k₀, vs) :: rest =>
      if k₀ = k then (k₀, vs ++ [v]) :: rest else (k₀, vs) :: appendTo rest k v

/-- The three indices produced by `content_to_qids`. -/
structure Indices where
  context_to_qids : Multimap
  questions_to_qids : Multimap
  answers_to_qids : Multimap
deriving DecidableEq, Repr

/-- The body of the innermost loop of `content_to_qids`: one `qa` item,
indexed only when it has exactly one answer. -/
def processQA (no_eval_answers : Bool) (idx : Indices) (context : String)
    (qa : Question) : Indices :=
  if qa.answers.length = 1 then
    { context_to_qids := appendTo idx.context_to_qids (remove_line_breaks context) qa.id
      questions_to_qids := appendTo idx.questions_to_qids qa.question qa.id
      answers_to_qids :=
        if no_eval_answers then idx.answers_to_qids
        else
          match qa.answers.head? with
          | some a => appendTo idx.answers_to_qids a.text qa.id
          | none => idx.answers_to_qids }
  else idx

/-- Folding `processQA` over the questions of one paragraph. -/
def processParagraph (no_eval_answers : Bool) (idx : Indices)
    (par : Paragraph) : Indices :=
  par.qas.foldl (fun i qa => processQA no_eval_answers i par.context qa) idx

/-- Folding over the paragraphs of one document. -/
def processDocument (no_eval_answers : Bool) (idx : Indices)
    (doc : Document) : Indices :=
  doc.paragraphs.foldl (processParagraph no_eval_answers) idx

/-- `content_to_qids(dataset, no_eval_answers)`: builds the three
indices by traversing every document, paragraph and question. -/
def content_to_qids (dataset : Dataset) (no_eval_answers : Bool) : Indices :=
  dataset.data.foldl (processDocument no_eval_answers)
    { context_to_qids := [], questions_to_qids := [], answers_to_qids := [] }

/-- The double loop shared by the three alignment passes: for every
entry of `refIdx` and every entry of `traIdx` (in iteration order),
emit the pair of keys when `p qids_tra qids_ref` holds. -/
def pairsPass (p : List String → List String → Bool)
    (refIdx traIdx : Multimap) : List (String × String) :=
  refIdx.flatMap (fun rkv =>
    (traIdx.filter (fun tkv => p tkv.2 rkv.2)).map (fun tkv => (rkv.1, tkv.1)))

/-- `set(qids_tra).intersection(set(qids_ref))` is truthy: the two
identifier lists share at least one identifier. -/
def intersectsPred (qids_tra qids_ref : List String) : Bool :=
  qids_tra.any (fun q => qids_ref.contains q)

/-- `qids_tra == qids_ref`: exact, order-sensitive list equality. -/
def eqPred (qids_tra qids_ref : List String) : Bool :=
  qids_tra == qids_ref

/-- The context-alignment loop of `align_content`. -/
def contextPass (ctxRef ctxTra : Multimap) : List (String × String) :=
  pairsPass intersectsPred ctxRef ctxTra

/-- The question-alignment loop of `align_content`. -/
def questionsPass (qRef qTra : Multimap) : List (String × String) :=
  pairsPass eqPred qRef qTra

/-- The answer-alignment loop of `align_content`: the source iterates
`answers_to_qids_ref.items()` in both the outer and the inner loop, so
the translated argument is never read. -/
def answersPass (aRef aTra : Multimap) : List (String × String) :=
  pairsPass eqPred aRef aRef

/-- `list(OrderedSet(l))`: drop duplicates, keeping each element at the
position of its first occurrence. -/
def orderedSet (l : List String) : List String :=
  l.foldl (fun acc x => if x ∈ acc then acc else acc ++ [x]) []

/-- The (reference, translated) pairs accumulated by the three passes
of `align_content`, in emission order: a pair is appended exactly when
one element is appended to `references` and one to `translations`. -/
def alignPairs (dataset_ref dataset_tra : Dataset)
    (no_eval_answers : Bool) : List (String × String) :=
  let iref := content_to_qids dataset_ref no_eval_answers
  let itra := content_to_qids dataset_tra no_eval_answers
  contextPass iref.context_to_qids itra.context_to_qids
    ++ questionsPass iref.questions_to_qids itra.questions_to_qids
    ++ answersPass iref.answers_to_qids itra.answers_to_qids

/-- `align_content` after the two `json.load`s: build both index
triples, run the three passes accumulating `references`/`translations`
in emission order, then deduplicate each list independently. -/
def align_content (dataset_ref dataset_tra : Dataset)
    (no_eval_answers : Bool) : List String × List String :=
  let pairs := alignPairs dataset_ref dataset_tra no_eval_answers
  (orderedSet (pairs.map Prod.fst), orderedSet (pairs.map Prod.snd))

/-- Modelled from the spec: the answer-alignment pass as §4.2/§9 of the
spec describe it, iterating the translated dataset's answer index
against itself; written only to be compared with `answersPass`, which
is translated from the source. -/
def answersPassSpec (aRef aTra : Multimap) : List (String × String) :=
  pairsPass eqPred aTra aTra

/-- Modelled from the spec: first-occurrence deduplication as the spec
words it — each element appears exactly once, at the position of its
first occurrence; written only to be compared with `orderedSet`. -/
def dedupFirstOccurrences : List String → List String
  | [] => []
  | x :: xs => x :: dedupFirstOccurrences (xs.filter (fun y => y ≠ x))
termination_by l => l.length
decreasing_by
  simp only [List.length_cons]
  exact Nat.lt_succ_of_le (List.length_filter_le _ _)

/-- `i` occurs in some identifier list of the multimap. -/
def memVals (m : Multimap) (i : String) : Prop :=
  ∃ p ∈ m, i ∈ p.2

/-- `k` is a key of the multimap. -/
def memKey (m : Multimap) (k : String) : Prop :=
  ∃ p ∈ m, p.1 = k

instance (m : Multimap) (i : String) : Decidable (memVals m i) := by
  unfold memVals; infer_instance

instance (m : Multimap) (k : String) : Decidable (memKey m k) := by
  unfold memKey; infer_instance

/-- Example reference dataset: one paragraph `"C"` with the one-answer
question `"q1"` whose answer text is `"A"`. -/
def exAnsRef : Dataset := ⟨[⟨[⟨"C", [⟨"q1", "Q", [⟨"A"⟩]⟩]⟩]⟩]⟩

/-- Example translated dataset: same id `"q1"`, answer text `"B"`. -/
def exAnsTra : Dataset := ⟨[⟨[⟨"D", [⟨"q1", "R", [⟨"B"⟩]⟩]⟩]⟩]⟩

/-- Example reference dataset: one paragraph holding both `"q1"` and
`"q2"`, each with a single answer. -/
def exLenRef : Dataset :=
  ⟨[⟨[⟨"C", [⟨"q1", "Qa", [⟨"A1"⟩]⟩, ⟨"q2", "Qb", [⟨"A2"⟩]⟩]⟩]⟩]⟩

/-- Example translated dataset: the same two ids split across two
paragraphs, so both translated contexts overlap the one reference
context. -/
def exLenTra : Dataset :=
  ⟨[⟨[⟨"X", [⟨"q1", "Ya", [⟨"B1"⟩]⟩]⟩, ⟨"Y", [⟨"q2", "Yb", [⟨"B2"⟩]⟩]⟩]⟩]⟩

/-- Example reference dataset whose only question `"q1"` has two
answers, hence is excluded from indexing. -/
def exMultiRef : Dataset := ⟨[⟨[⟨"C", [⟨"q1", "Q", [⟨"A1"⟩, ⟨"A2"⟩]⟩]⟩]⟩]⟩

/-- Example translated dataset whose question `"q1"` has one answer. -/
def exMultiTra : Dataset := ⟨[⟨[⟨"Ct", [⟨"q1", "Qt", [⟨"B"⟩]⟩]⟩]⟩]⟩

theorem memVals_appendTo (m : Multimap) (k v i : String) :
    memVals (appendTo m k v) i ↔ memVals m i ∨ i = v := by
  induction m with
  | nil => simp [appendTo, memVals]
  | cons hd tl ih =>
      obtain ⟨k₀, vs⟩ := hd
      by_cases h : k₀ = k
      · simp only [appendTo, if_pos h, memVals, List.mem_cons]
        simp only [memVals] at *
        constructor
        · rintro ⟨p, hp | hp, hmem⟩
          · subst hp; simp only [List.mem_append, List.mem_singleton] at hmem
            rcases hmem with hmem | hmem
            · exact Or.inl ⟨(k₀, vs), Or.inl rfl, hmem⟩
            · exact Or.inr hmem
          · exact Or.inl ⟨p, Or.inr hp, hmem⟩
        · rintro (⟨p, hp | hp, hmem⟩ | hv)
          · subst hp; exact ⟨(k₀, vs ++ [v]), Or.inl rfl, by simp [hmem]⟩
          · exact ⟨p, Or.inr hp, hmem⟩
          · exact ⟨(k₀, vs ++ [v]), Or.inl rfl, by simp [hv]⟩
      · simp only [appendTo, if_neg h, memVals, List.mem_cons] at *
        constructor
        · rintro ⟨p, hp | hp, hmem⟩
          · subst hp; exact Or.inl ⟨(k₀, vs), Or.inl rfl, hmem⟩
          · rcases (ih).mp ⟨p, hp, hmem⟩ with hm | hv
            · obtain ⟨q, hq, hqm⟩ := hm
              exact Or.inl ⟨q, Or.inr hq, hqm⟩
            · exact Or.inr hv
        · rintro (⟨p, hp | hp, hmem⟩ | hv)
          · subst hp; exact ⟨(k₀, vs), Or.inl rfl, hmem⟩
          · obtain ⟨q, hq, hqm⟩ := (ih).mpr (Or.inl ⟨p, hp, hmem⟩)
            exact ⟨q, Or.inr hq, hqm⟩
          · obtain ⟨q, hq, hqm⟩ := (ih).mpr (Or.inr hv)
            exact ⟨q, Or.inr hq, hqm⟩

theorem memKey_appendTo (m : Multimap) (k v j : String) :
    memKey (appendTo m k v) j ↔ memKey m j ∨ j = k := by
  induction m with
  | nil => simp [appendTo, memKey, eq_comm]
  | cons hd tl ih =>
      obtain ⟨k₀, vs⟩ := hd
      by_cases h : k₀ = k
      · simp only [appendTo, if_pos h, memKey, List.mem_cons]
        constructor
        · rintro ⟨p, hp | hp, hk⟩
          · subst hp; exact Or.inr (hk.symm.trans h)
          · exact Or.inl ⟨p, Or.inr hp, hk⟩
        · rintro (⟨p, hp | hp, hk⟩ | hk)
          · subst hp; exact ⟨(k₀, vs ++ [v]), Or.inl rfl, hk⟩
          · exact ⟨p, Or.inr hp, hk⟩
          · exact ⟨(k₀, vs ++ [v]), Or.inl rfl, h.trans hk.symm⟩
      · simp only [appendTo, if_neg h, memKey, List.mem_cons] at *
        constructor
        · rintro ⟨p, hp | hp, hk⟩
          · subst hp; exact Or.inl ⟨(k₀, vs), Or.inl rfl, hk⟩
          · rcases (ih).mp ⟨p, hp, hk⟩ with hm | hv
            · obtain ⟨q, hq, hqk⟩ := hm
              exact Or.inl ⟨q, Or.inr hq, hqk⟩
            · exact Or.inr hv
        · rintro (⟨p, hp | hp, hk⟩ | hv)
          · subst hp; exact ⟨(k₀, vs), Or.inl rfl, hk⟩
          · obtain ⟨q, hq, hqk⟩ := (ih).mpr (Or.inl ⟨p, hp, hk⟩)
            exact ⟨q, Or.inr hq, hqk⟩
          · obtain ⟨q, hq, hqk⟩ := (ih).mpr (Or.inr hv)
            exact ⟨q, Or.inr hq, hqk⟩

/-- Folding a step whose effect on a predicate is an accumulation. -/
theorem foldl_accum {α σ : Type} (f : σ → α → σ) (Q : σ → Prop) (A : α → Prop)
    (hf : ∀ s x, Q (f s x) ↔ Q s ∨ A x) (l : List α) (s : σ) :
    Q (l.foldl f s) ↔ Q s ∨ ∃ x ∈ l, A x := by
  induction l generalizing s with
  | nil => simp
  | cons hd tl ih =>
      rw [List.foldl_cons, ih, hf]
      simp [or_assoc]

theorem processQA_ctx_vals (ne : Bool) (idx : Indices) (c : String)
    (qa : Question) (i : String) :
    memVals (processQA ne idx c qa).context_to_qids i ↔
      memVals idx.context_to_qids i ∨ (qa.answers.length = 1 ∧ i = qa.id) := by
  unfold processQA
  by_cases h : qa.answers.length = 1
  · simp [h, memVals_appendTo]
  · simp [h]

theorem processQA_q_vals (ne : Bool) (idx : Indices) (c : String)
    (qa : Question) (i : String) :
    memVals (processQA ne idx c qa).questions_to_qids i ↔
      memVals idx.questions_to_qids i ∨ (qa.answers.length = 1 ∧ i = qa.id) := by
  unfold processQA
  by_cases h : qa.answers.length = 1
  · simp [h, memVals_appendTo]
  · simp [h]

theorem processQA_a_vals (ne : Bool) (idx : Indices) (c : String)
    (qa : Question) (i : String) :
    memVals (processQA ne idx c qa).answers_to_qids i ↔
      memVals idx.answers_to_qids i ∨
        (ne = false ∧ qa.answers.length = 1 ∧ i = qa.id) := by
  unfold processQA
  by_cases h : qa.answers.length = 1
  · by_cases hne : ne = true
    · simp [h, hne]
    · obtain ⟨a, ha⟩ := List.length_eq_one.mp h
      simp only [Bool.not_eq_true] at hne
      simp [h, hne, ha, memVals_appendTo]
  · simp [h]

theorem processQA_ctx_keys (ne : Bool) (idx : Indices) (c : String)
    (qa : Question) (k : String) :
    memKey (processQA ne idx c qa).context_to_qids k ↔
      memKey idx.context_to_qids k ∨
        (qa.answers.length = 1 ∧ k = remove_line_breaks c) := by
  unfold processQA
  by_cases h : qa.answers.length = 1
  · simp [h, memKey_appendTo]
  · simp [h]

theorem processQA_q_keys (ne : Bool) (idx : Indices) (c : String)
    (qa : Question) (k : String) :
    memKey (processQA ne idx c qa).questions_to_qids k ↔
      memKey idx.questions_to_qids k ∨
        (qa.answers.length = 1 ∧ k = qa.question) := by
  unfold processQA
  by_cases h : qa.answers.length = 1
  · simp [h, memKey_appendTo]
  · simp [h]

theorem processQA_a_keys (ne : Bool) (idx : Indices) (c : String)
    (qa : Question) (k : String) :
    memKey (processQA ne idx c qa).answers_to_qids k ↔
      memKey idx.answers_to_qids k ∨
        (ne = false ∧ ∃ a, qa.answers = [a] ∧ k = a.text) := by
  unfold processQA
  by_cases h : qa.answers.length = 1
  · by_cases hne : ne = true
    · simp [h, hne]
    · obtain ⟨a, ha⟩ := List.length_eq_one.mp h
      simp only [Bool.not_eq_true] at hne
      simp [h, hne, ha, memKey_appendTo]
  · simp only [if_neg h]
    constructor
    · exact Or.inl
    · rintro (hm | ⟨_, a, ha, _⟩)
      · exact hm
      · exact absurd (by simp [ha] : qa.answers.length = 1) h

theorem processParagraph_accum (ne : Bool) (Q : Indices → Prop)
    (A : String → Question → Prop)
    (hq : ∀ idx c qa, Q (processQA ne idx c qa) ↔ Q idx ∨ A c qa)
    (idx : Indices) (par : Paragraph) :
    Q (processParagraph ne idx par) ↔ Q idx ∨ ∃ qa ∈ par.qas, A par.context qa :=
  foldl_accum _ Q (A par.context) (fun s qa => hq s par.context qa) par.qas idx

theorem processDocument_accum (ne : Bool) (Q : Indices → Prop)
    (A : String → Question → Prop)
    (hq : ∀ idx c qa, Q (processQA ne idx c qa) ↔ Q idx ∨ A c qa)
    (idx : Indices) (doc : Document) :
    Q (processDocument ne idx doc) ↔
      Q idx ∨ ∃ par ∈ doc.paragraphs, ∃ qa ∈ par.qas, A par.context qa := by
  unfold processDocument
  exact foldl_accum _ Q (fun par => ∃ qa ∈ par.qas, A par.context qa)
    (fun s par => processParagraph_accum ne Q A hq s par) doc.paragraphs idx

theorem content_to_qids_accum (ne : Bool) (Q : Indices → Prop)
    (A : String → Question → Prop)
    (hq : ∀ idx c qa, Q (processQA ne idx c qa) ↔ Q idx ∨ A c qa)
    (d : Dataset) :
    Q (content_to_qids d ne) ↔
      Q ⟨[], [], []⟩ ∨
        ∃ doc ∈ d.data, ∃ par ∈ doc.paragraphs, ∃ qa ∈ par.qas, A par.context qa := by
  unfold content_to_qids
  exact foldl_accum _ Q
    (fun doc => ∃ par ∈ doc.paragraphs, ∃ qa ∈ par.qas, A par.context qa)
    (fun s doc => processDocument_accum ne Q A hq s doc) d.data _

theorem content_ctx_vals (d : Dataset) (ne : Bool) (i : String) :
    memVals (content_to_qids d ne).context_to_qids i ↔
      ∃ doc ∈ d.data, ∃ par ∈ doc.paragraphs, ∃ qa ∈ par.qas,
        qa.answers.length = 1 ∧ i = qa.id := by
  rw [content_to_qids_accum ne (fun idx => memVals idx.context_to_qids i)
    (fun _ qa => qa.answers.length = 1 ∧ i = qa.id)
    (fun idx c qa => processQA_ctx_vals ne idx c qa i) d]
  simp [memVals]

theorem content_q_vals (d : Dataset) (ne : Bool) (i : String) :
    memVals (content_to_qids d ne).questions_to_qids i ↔
      ∃ doc ∈ d.data, ∃ par ∈ doc.paragraphs, ∃ qa ∈ par.qas,
        qa.answers.length = 1 ∧ i = qa.id := by
  rw [content_to_qids_accum ne (fun idx => memVals idx.questions_to_qids i)
    (fun _ qa => qa.answers.length = 1 ∧ i = qa.id)
    (fun idx c qa => processQA_q_vals ne idx c qa i) d]
  simp [memVals]

theorem content_a_vals (d : Dataset) (ne : Bool) (i : String) :
    memVals (content_to_qids d ne).answers_to_qids i ↔
      (ne = false ∧ ∃ doc ∈ d.data, ∃ par ∈ doc.paragraphs, ∃ qa ∈ par.qas,
        qa.answers.length = 1 ∧ i = qa.id) := by
  rw [content_to_qids_accum ne (fun idx => memVals idx.answers_to_qids i)
    (fun _ qa => ne = false ∧ qa.answers.length = 1 ∧ i = qa.id)
    (fun idx c qa => processQA_a_vals ne idx c qa i) d]
  simp [memVals]
  tauto

theorem content_ctx_keys (d : Dataset) (ne : Bool) (k : String) :
    memKey (content_to_qids d ne).context_to_qids k ↔
      ∃ doc ∈ d.data, ∃ par ∈ doc.paragraphs, ∃ qa ∈ par.qas,
        qa.answers.length = 1 ∧ k = remove_line_breaks par.context := by
  rw [content_to_qids_accum ne (fun idx => memKey idx.context_to_qids k)
    (fun c qa => qa.answers.length = 1 ∧ k = remove_line_breaks c)
    (fun idx c qa => processQA_ctx_keys ne idx c qa k) d]
  simp [memKey]

theorem content_q_keys (d : Dataset) (ne : Bool) (k : String) :
    memKey (content_to_qids d ne).questions_to_qids k ↔
      ∃ doc ∈ d.data, ∃ par ∈ doc.paragraphs, ∃ qa ∈ par.qas,
        qa.answers.length = 1 ∧ k = qa.question := by
  rw [content_to_qids_accum ne (fun idx => memKey idx.questions_to_qids k)
    (fun _ qa => qa.answers.length = 1 ∧ k = qa.question)
    (fun idx c qa => processQA_q_keys ne idx c qa k) d]
  simp [memKey]

theorem content_a_keys (d : Dataset) (ne : Bool) (k : String) :
    memKey (content_to_qids d ne).answers_to_qids k ↔
      (ne = false ∧ ∃ doc ∈ d.data, ∃ par ∈ doc.paragraphs, ∃ qa ∈ par.qas,
        ∃ a, qa.answers = [a] ∧ k = a.text) := by
  rw [content_to_qids_accum ne (fun idx => memKey idx.answers_to_qids k)
    (fun _ qa => ne = false ∧ ∃ a, qa.answers = [a] ∧ k = a.text)
    (fun idx c qa => processQA_a_keys ne idx c qa k) d]
  simp [memKey]
  tauto

theorem mem_pairsPass (p : List String → List String → Bool)
    (A B : Multimap) (x y : String) :
    (x, y) ∈ pairsPass p A B ↔
      ∃ qx qy, (x, qx) ∈ A ∧ (y, qy) ∈ B ∧ p qy qx = true := by
  unfold pairsPass
  constructor
  · intro h
    rw [List.mem_flatMap] at h
    obtain ⟨⟨xr, qx⟩, hr, hmap⟩ := h
    rw [List.mem_map] at hmap
    obtain ⟨⟨yt, qy⟩, hf, heq⟩ := hmap
    rw [List.mem_filter] at hf
    obtain ⟨ht, hp⟩ := hf
    obtain ⟨h1, h2⟩ := Prod.mk.injEq .. ▸ heq
    subst h1; subst h2
    exact ⟨qx, qy, hr, ht, hp⟩
  · rintro ⟨qx, qy, hx, hy, hp⟩
    rw [List.mem_flatMap]
    refine ⟨(x, qx), hx, ?_⟩
    rw [List.mem_map]
    exact ⟨(y, qy), List.mem_filter.mpr ⟨hy, hp⟩, rfl⟩

theorem mem_contextPass (A B : Multimap) (x y : String) :
    (x, y) ∈ contextPass A B ↔
      ∃ qx qy, (x, qx) ∈ A ∧ (y, qy) ∈ B ∧ ∃ i, i ∈ qy ∧ i ∈ qx := by
  rw [contextPass, mem_pairsPass]
  constructor
  · rintro ⟨qx, qy, hx, hy, hp⟩
    refine ⟨qx, qy, hx, hy, ?_⟩
    unfold intersectsPred at hp
    rw [List.any_eq_true] at hp
    obtain ⟨i, hi, hc⟩ := hp
    exact ⟨i, hi, List.elem_iff.mp hc⟩
  · rintro ⟨qx, qy, hx, hy, i, hiy, hix⟩
    refine ⟨qx, qy, hx, hy, ?_⟩
    unfold intersectsPred
    rw [List.any_eq_true]
    exact ⟨i, hiy, List.elem_iff.mpr hix⟩

theorem mem_questionsPass (A B : Multimap) (x y : String) :
    (x, y) ∈ questionsPass A B ↔
      ∃ qx qy, (x, qx) ∈ A ∧ (y, qy) ∈ B ∧ qy = qx := by
  rw [questionsPass, mem_pairsPass]
  unfold eqPred
  simp only [beq_iff_eq]

theorem mem_answersPass (A B : Multimap) (x y : String) :
    (x, y) ∈ answersPass A B ↔
      ∃ qx qy, (x, qx) ∈ A ∧ (y, qy) ∈ A ∧ qy = qx := by
  rw [answersPass, mem_pairsPass]
  unfold eqPred
  simp only [beq_iff_eq]

theorem mem_removeChar (c : Char) (s : String) (x : Char) :
    x ∈ (removeChar c s).data ↔ x ∈ s.data ∧ x ≠ c := by
  unfold removeChar
  simp [List.mem_filter]

theorem mem_remove_line_breaks (s : String) (x : Char) :
    x ∈ (remove_line_breaks s).data ↔ x ∈ s.data ∧ x ≠ '\n' ∧ x ≠ '\r' := by
  unfold remove_line_breaks
  rw [mem_removeChar, mem_removeChar]
  tauto

theorem orderedSet_loop (l : List String) : ∀ acc : List String,
    l.foldl (fun acc x => if x ∈ acc then acc else acc ++ [x]) acc
      = acc ++ dedupFirstOccurrences (l.filter (fun y => y ∉ acc)) := by
  induction l with
  | nil => intro acc; simp [dedupFirstOccurrences]
  | cons x xs ih =>
      intro acc
      by_cases h : x ∈ acc
      · rw [List.foldl_cons, if_pos h, ih acc]
        have hfil : (x :: xs).filter (fun y => y ∉ acc)
            = xs.filter (fun y => y ∉ acc) := by
          rw [List.filter_cons]
          simp [h]
        rw [hfil]
      · rw [List.foldl_cons, if_neg h, ih (acc ++ [x])]
        have hfil : (x :: xs).filter (fun y => y ∉ acc)
            = x :: xs.filter (fun y => y ∉ acc) := by
          rw [List.filter_cons]
          simp [h]
        rw [hfil, dedupFirstOccurrences]
        have hfil2 : xs.filter (fun y => y ∉ acc ++ [x])
            = (xs.filter (fun y => y ∉ acc)).filter (fun y => y ≠ x) := by
          rw [List.filter_filter]
          apply List.filter_congr
          intro y _
          simp [not_or, Bool.and_comm]
        rw [hfil2]
        simp

theorem orderedSet_eq_dedupFirstOccurrences (l : List String) :
    orderedSet l = dedupFirstOccurrences l := by
  rw [orderedSet, orderedSet_loop l []]
  simp

theorem mem_dedupFirstOccurrences (l : List String) (x : String) :
    x ∈ dedupFirstOccurrences l ↔ x ∈ l := by
  induction l using dedupFirstOccurrences.induct with
  | case1 => simp [dedupFirstOccurrences]
  | case2 a as ih =>
      rw [dedupFirstOccurrences]
      by_cases hxa : x = a
      · simp [hxa]
      · rw [List.mem_cons, List.mem_cons, ih]
        simp [hxa, List.mem_filter]

theorem nodup_dedupFirstOccurrences (l : List String) :
    (dedupFirstOccurrences l).Nodup := by
  induction l using dedupFirstOccurrences.induct with
  | case1 => simp [dedupFirstOccurrences]
  | case2 a as ih =>
      rw [dedupFirstOccurrences]
      refine List.nodup_cons.mpr ⟨?_, ih⟩
      rw [mem_dedupFirstOccurrences]
      simp [List.mem_filter]

/-- Claim C1, counterexample: the claim says the answer-alignment pass
compares the translated dataset's answer index against itself, but on
a concrete pair of datasets whose answer texts differ (`"A"` in the
reference, `"B"` in the translation, same id) the code's pass emits
`[("A", "A")]` — built from the reference index — while the behaviour
the claim describes (`answersPassSpec`) would emit `[("B", "B")]`. -/
theorem c1_counterexample :
    answersPass (content_to_qids exAnsRef false).answers_to_qids
        (content_to_qids exAnsTra false).answers_to_qids = [("A", "A")]
    ∧ answersPassSpec (content_to_qids exAnsRef false).answers_to_qids
        (content_to_qids exAnsTra false).answers_to_qids = [("B", "B")]
    ∧ answersPass (content_to_qids exAnsRef false).answers_to_qids
        (content_to_qids exAnsTra false).answers_to_qids
      ≠ answersPassSpec (content_to_qids exAnsRef false).answers_to_qids
        (content_to_qids exAnsTra false).answers_to_qids := by
  decide

/-- Claim C1, amended: in the answer-alignment pass the REFERENCE
dataset's answer index is compared against itself — a pair is emitted
iff both components are keys of the reference answer index with
exactly equal identifier lists — and the translated answer index
argument is never read. -/
theorem c1_answers_pass_self_comparison :
    (∀ (aRef aTra : Multimap) (x y : String),
      (x, y) ∈ answersPass aRef aTra ↔
        ∃ qx qy, (x, qx) ∈ aRef ∧ (y, qy) ∈ aRef ∧ qy = qx)
    ∧ ∀ (aRef aTra aTra' : Multimap),
        answersPass aRef aTra = answersPass aRef aTra' :=
  ⟨mem_answersPass, fun _ _ _ => rfl⟩

/-- Claim C2, counterexample: the reference list and the translated
list returned by `align_content` do not always have equal length: on
`exLenRef`/`exLenTra` the reference context pairs with both translated
contexts, the duplicate `"C"` is removed from one list only, and the
returned lists have lengths 3 and 4. -/
theorem c2_counterexample :
    (align_content exLenRef exLenTra true).1.length = 3
    ∧ (align_content exLenRef exLenTra true).2.length = 4
    ∧ (align_content exLenRef exLenTra true).1.length ≠
        (align_content exLenRef exLenTra true).2.length := by
  decide

/-- Claim C2, amended: before deduplication the two accumulated lists
always have equal length, but the per-list deduplication can break it:
there are input datasets for which `align_content` returns lists of
different lengths, so equal final length is not guaranteed (the caller
re-checks it with a fatal runtime assertion). -/
theorem c2_lengths_not_guaranteed :
    (∀ (dref dtra : Dataset) (ne : Bool),
      ((alignPairs dref dtra ne).map Prod.fst).length
        = ((alignPairs dref dtra ne).map Prod.snd).length)
    ∧ ∃ (dref dtra : Dataset) (ne : Bool),
        (align_content dref dtra ne).1.length ≠
          (align_content dref dtra ne).2.length :=
  ⟨fun _ _ _ => by simp, exLenRef, exLenTra, true, by decide⟩

/-- Claim C3: an identifier occurs in some identifier list of the
context, question or answer index produced by `content_to_qids` iff
the dataset contains a question with that id having exactly one
answer; questions with zero or several answers contribute to no
index, for either value of the flag. -/
theorem c3_single_answer_iff :
    ∀ (d : Dataset) (ne : Bool) (i : String),
      (memVals (content_to_qids d ne).context_to_qids i
        ∨ memVals (content_to_qids d ne).questions_to_qids i
        ∨ memVals (content_to_qids d ne).answers_to_qids i)
      ↔ ∃ doc ∈ d.data, ∃ par ∈ doc.paragraphs, ∃ qa ∈ par.qas,
          qa.answers.length = 1 ∧ i = qa.id := by
  intro d ne i
  rw [content_ctx_vals, content_q_vals, content_a_vals]
  constructor
  · rintro (h | h | ⟨_, h⟩) <;> exact h
  · intro h
    exact Or.inl h

/-- Claim C4: the question-alignment pass emits a pair iff some entry
of the reference index and some entry of the translated index carry
those two texts with exactly equal (order-sensitive) identifier
lists; in particular overlapping-but-different lists such as
`["1","2"]` versus `["1","3"]` produce no pair. -/
theorem c4_question_pairs_iff_equal_ids :
    (∀ (qRef qTra : Multimap) (x y : String),
      (x, y) ∈ questionsPass qRef qTra ↔
        ∃ qx qy, (x, qx) ∈ qRef ∧ (y, qy) ∈ qTra ∧ qy = qx)
    ∧ questionsPass [("r", ["1", "2"])] [("t", ["1", "3"])] = [] :=
  ⟨mem_questionsPass, by decide⟩

/-- Claim C5: the context-alignment pass emits a pair iff some entry
of the reference context index and some entry of the translated
context index carry those two texts with identifier lists sharing at
least one identifier — a non-empty-intersection test, not equality. -/
theorem c5_context_pairs_iff_shared_id :
    ∀ (ctxRef ctxTra : Multimap) (x y : String),
      (x, y) ∈ contextPass ctxRef ctxTra ↔
        ∃ qx qy, (x, qx) ∈ ctxRef ∧ (y, qy) ∈ ctxTra ∧ ∃ i, i ∈ qy ∧ i ∈ qx :=
  mem_contextPass

/-- Claim C6: every key of the context index is some paragraph context
with all line breaks and carriage returns removed, while question and
answer keys are the question and answer texts unmodified; and
`remove_line_breaks` keeps exactly the characters other than a line
break or a carriage return. -/
theorem c6_context_keys_normalized :
    ∀ (d : Dataset) (ne : Bool) (k : String),
      (memKey (content_to_qids d ne).context_to_qids k ↔
        ∃ doc ∈ d.data, ∃ par ∈ doc.paragraphs, ∃ qa ∈ par.qas,
          qa.answers.length = 1 ∧ k = remove_line_breaks par.context)
      ∧ (memKey (content_to_qids d ne).questions_to_qids k ↔
          ∃ doc ∈ d.data, ∃ par ∈ doc.paragraphs, ∃ qa ∈ par.qas,
            qa.answers.length = 1 ∧ k = qa.question)
      ∧ (memKey (content_to_qids d ne).answers_to_qids k ↔
          (ne = false ∧ ∃ doc ∈ d.data, ∃ par ∈ doc.paragraphs, ∃ qa ∈ par.qas,
            ∃ a, qa.answers = [a] ∧ k = a.text))
      ∧ (∀ (s : String) (c : Char),
          c ∈ (remove_line_breaks s).data ↔ c ∈ s.data ∧ c ≠ '\n' ∧ c ≠ '\r') :=
  fun d ne k =>
    ⟨content_ctx_keys d ne k, content_q_keys d ne k, content_a_keys d ne k,
      fun s c => mem_remove_line_breaks s c⟩

/-- Claim C7: the `OrderedSet`-based deduplication equals
first-occurrence deduplication: every element of the input appears
exactly once, at the position of its first occurrence, and
`["b","a","b","c"]` yields `["b","a","c"]`. -/
theorem c7_dedup_first_occurrence :
    (∀ l : List String, orderedSet l = dedupFirstOccurrences l)
    ∧ (∀ l : List String, (orderedSet l).Nodup)
    ∧ (∀ (l : List String) (x : String), x ∈ orderedSet l ↔ x ∈ l)
    ∧ orderedSet ["b", "a", "b", "c"] = ["b", "a", "c"] :=
  ⟨orderedSet_eq_dedupFirstOccurrences,
    fun l => orderedSet_eq_dedupFirstOccurrences l ▸ nodup_dedupFirstOccurrences l,
    fun l x => orderedSet_eq_dedupFirstOccurrences l ▸ mem_dedupFirstOccurrences l x,
    by decide⟩

/-- Claim C8: the context-alignment pass is symmetric — a pair `(x, y)`
is emitted on index arguments `(A, B)` iff the swapped pair `(y, x)`
is emitted on `(B, A)`. -/
theorem c8_context_pass_symmetric :
    ∀ (A B : Multimap) (x y : String),
      (x, y) ∈ contextPass A B ↔ (y, x) ∈ contextPass B A := by
  intro A B x y
  rw [mem_contextPass, mem_contextPass]
  constructor
  · rintro ⟨qx, qy, hx, hy, i, hiy, hix⟩
    exact ⟨qy, qx, hy, hx, i, hix, hiy⟩
  · rintro ⟨qy, qx, hy, hx, i, hix, hiy⟩
    exact ⟨qx, qy, hx, hy, i, hiy, hix⟩

/-- Claim C9, counterexample: on the concrete scenario of the claim —
the reference question `"q1"` has two answers while its translated
counterpart has one — the identifier `"q1"` DOES occur in the
translated dataset's question index, so it does not contribute to
"neither dataset's question index" as claimed. -/
theorem c9_counterexample :
    (∃ doc ∈ exMultiRef.data, ∃ par ∈ doc.paragraphs, ∃ qa ∈ par.qas,
      qa.id = "q1" ∧ qa.answers.length = 2)
    ∧ (∃ doc ∈ exMultiTra.data, ∃ par ∈ doc.paragraphs, ∃ qa ∈ par.qas,
      qa.id = "q1" ∧ qa.answers.length = 1)
    ∧ memVals (content_to_qids exMultiTra false).questions_to_qids "q1" := by
  decide

/-- Claim C9, amended: if no reference question with identifier `i`
has exactly one answer then `i` is absent from the reference question
index (though it may occur in the translated one, where exclusion is
decided independently), and the question-alignment pass can match no
translated entry whose identifier list contains `i` against any
reference entry, so no aligned pair arises for that identifier. -/
theorem c9_excluded_id_no_pairs :
    ∀ (dref dtra : Dataset) (ne : Bool) (i : String),
      (∀ doc ∈ dref.data, ∀ par ∈ doc.paragraphs, ∀ qa ∈ par.qas,
        qa.id = i → qa.answers.length ≠ 1) →
      (¬ memVals (content_to_qids dref ne).questions_to_qids i)
      ∧ ((∃ doc ∈ dtra.data, ∃ par ∈ doc.paragraphs, ∃ qa ∈ par.qas,
            qa.answers.length = 1 ∧ i = qa.id) →
          memVals (content_to_qids dtra ne).questions_to_qids i)
      ∧ (∀ (y : String) (qy : List String),
          (y, qy) ∈ (content_to_qids dtra ne).questions_to_qids → i ∈ qy →
          ∀ (x : String) (qx : List String),
            (x, qx) ∈ (content_to_qids dref ne).questions_to_qids → qy ≠ qx) := by
  intro dref dtra ne i h
  have hnot : ¬ memVals (content_to_qids dref ne).questions_to_qids i := by
    rw [content_q_vals]
    rintro ⟨doc, hdoc, par, hpar, qa, hqa, hlen, hid⟩
    exact h doc hdoc par hpar qa hqa hid.symm hlen
  refine ⟨hnot, ?_, ?_⟩
  · intro hx
    exact (content_q_vals dtra ne i).mpr hx
  · intro y qy hy hiy x qx hx heq
    exact hnot ⟨(x, qx), hx, heq ▸ hiy⟩

/-- Claim C9, witness: the amended theorem applied to the concrete
two-answers/one-answer scenario. -/
theorem c9_excluded_id_no_pairs_witness :
    (∀ doc ∈ exMultiRef.data, ∀ par ∈ doc.paragraphs, ∀ qa ∈ par.qas,
      qa.id = "q1" → qa.answers.length ≠ 1)
    ∧ ((¬ memVals (content_to_qids exMultiRef false).questions_to_qids "q1")
      ∧ ((∃ doc ∈ exMultiTra.data, ∃ par ∈ doc.paragraphs, ∃ qa ∈ par.qas,
            qa.answers.length = 1 ∧ "q1" = qa.id) →
          memVals (content_to_qids exMultiTra false).questions_to_qids "q1")
      ∧ (∀ (y : String) (qy : List String),
          (y, qy) ∈ (content_to_qids exMultiTra false).questions_to_qids →
          "q1" ∈ qy →
          ∀ (x : String) (qx : List String),
            (x, qx) ∈ (content_to_qids exMultiRef false).questions_to_qids →
            qy ≠ qx)) :=
  ⟨by decide, c9_excluded_id_no_pairs exMultiRef exMultiTra false "q1" (by decide)⟩

/-- Claim C10: with answer evaluation enabled, every answer text of a
single-answer question of the reference dataset yields the identical
pair `(text, text)` in the answer-alignment pass, and the translated
dataset's answer index has no effect on the pass's output. -/
theorem c10_answers_pass_reference_only :
    ∀ (dref dtra dtra' : Dataset),
      (∀ x : String,
        (∃ doc ∈ dref.data, ∃ par ∈ doc.paragraphs, ∃ qa ∈ par.qas,
          ∃ a, qa.answers = [a] ∧ x = a.text) →
        (x, x) ∈ answersPass (content_to_qids dref false).answers_to_qids
          (content_to_qids dtra false).answers_to_qids)
      ∧ answersPass (content_to_qids dref false).answers_to_qids
            (content_to_qids dtra false).answers_to_qids
        = answersPass (content_to_qids dref false).answers_to_qids
            (content_to_qids dtra' false).answers_to_qids := by
  intro dref dtra dtra'
  refine ⟨?_, rfl⟩
  intro x hx
  have hk : memKey (content_to_qids dref false).answers_to_qids x :=
    (content_a_keys dref false x).mpr ⟨rfl, hx⟩
  obtain ⟨⟨k, vs⟩, hmem, hkx⟩ := hk
  rw [mem_answersPass]
  exact ⟨vs, vs, hkx ▸ hmem, hkx ▸ hmem, rfl⟩

/-- Claim C10, witness: on the concrete reference dataset whose only
answer text is `"A"`, the pass emits the pair `("A", "A")`. -/
theorem c10_answers_pass_reference_only_witness :
    (∃ doc ∈ exAnsRef.data, ∃ par ∈ doc.paragraphs, ∃ qa ∈ par.qas,
      ∃ a, qa.answers = [a] ∧ "A" = a.text)
    ∧ ("A", "A") ∈ answersPass (content_to_qids exAnsRef false).answers_to_qids
        (content_to_qids exAnsTra false).answers_to_qids :=
  ⟨by simp [exAnsRef],
    (c10_answers_pass_reference_only exAnsRef exAnsTra exAnsTra).1 "A"
      (by simp [exAnsRef])⟩

end TAR
